import Mathlib

/-!
Verification of the round-robin load balancer (`siwacarn/lab-loadbalance`).

The Go sources contain several copies of the same balancer:
- `src/request/loadbalance.go` (package `request`): `GetNextURL` reads the
  current index and then increments; `CheckAndRestoreUrls` requires status 200;
  `SendRequest` is a retry loop.
- `src/request/main.go`, first copy (lines 13-161): `GetNextURL` increments
  first; `CheckAndRestoreUrls` requires status 200; `sendRequest` is the same
  retry loop.
- `src/request/main.go`, second copy (lines 163-300): `GetNextURL` increments
  first; `CheckAndRestoreUrls` reinstates on any received response regardless
  of status; `sendRequest` performs a single attempt.

We embed the shared state (`RoundRobinBalancer`) once and each divergent
method once per variant: namespace `LB` holds the `loadbalance.go` copy,
namespace `MainPkg` the `GetNextURL` shared by both `main.go` copies, and
namespace `MainB` the second `main.go` copy's probe loop and dispatcher.
-/

set_option maxHeartbeats 1000000

/-- A `*url.URL` heap reference. `id` models pointer identity (each call of
`url.Parse` allocates a fresh value); `str` is its normalized string form,
the result of `URL.String()`. The Go `removedUrls` map is keyed by pointer,
so two independently parsed copies of the same string are distinct keys,
while `RemoveURL` compares entries of `activeUrls` by `String()`. -/
structure URL where
  id : Nat
  str : String
deriving DecidableEq

/-- Modulus of Go's `uint64`, the type of `currentIndex`. -/
def W64 : Nat := 2 ^ 64

/-- The balancer state shared by all copies. `removedUrls` is the key list of
the Go map (insertion order); `nextId` is a ghost allocation counter handing
out fresh pointer identities for the results of `url.Parse`. -/
structure RoundRobinBalancer where
  activeUrls : List URL
  removedUrls : List URL
  currentIndex : Nat
  nextId : Nat
deriving DecidableEq

/-- The strings of a list of URL references, in order. -/
def strsOf (l : List URL) : List String := l.map URL.str

/-- `NewRoundRobinBalancer`: every input URL is re-parsed via
`url.Parse(backendsURL.String())`, allocating a fresh value; parsing the
string form of an already parsed URL cannot fail, so each input lands in
`activeUrls` in order. `removedUrls` starts empty and `currentIndex` at 0
(Go zero values). The input is taken as the list of normalized strings of
the `backendUrls` slice. -/
def NewRoundRobinBalancer (backendUrls : List String) : RoundRobinBalancer :=
  { activeUrls := backendUrls.enum.map (fun p => ⟨p.1, p.2⟩)
    removedUrls := []
    currentIndex := 0
    nextId := backendUrls.length }

/-- The splice loop of `RemoveURL`: remove the first element whose `String()`
equals `s`, then `break`. -/
def eraseFirstStr : List URL → String → List URL
  | [], _ => []
  | u :: us, s => if u.str = s then us else u :: eraseFirstStr us s

/-- `RemoveURL` (textually identical in all three copies): first the argument
is unconditionally inserted into the pointer-keyed `removedUrls` map (a no-op
only when that exact reference is already a key), then the first string-equal
entry is spliced out of `activeUrls`. -/
def RemoveURL (r : RoundRobinBalancer) (urlToRemove : URL) : RoundRobinBalancer :=
  { r with
    removedUrls :=
      if urlToRemove ∈ r.removedUrls then r.removedUrls
      else r.removedUrls ++ [urlToRemove]
    activeUrls := eraseFirstStr r.activeUrls urlToRemove.str }

/-- Outcome of one HTTP interaction with a URL, as observed by this code:
`reqErr` models `http.NewRequestWithContext` failing before any network
traffic, `transportErr` a transport-level failure of `Do`/`Get` (no response),
and `resp status bodyOk` a received response together with whether reading
its body succeeds. -/
inductive Outcome
  | reqErr
  | transportErr
  | resp (status : Nat) (bodyOk : Bool)
deriving DecidableEq

/-- The probe success test of `request/loadbalance.go` and of the first
`main.go` copy: `err == nil && resp.StatusCode == 200`. -/
def probeOk (oracle : URL → Outcome) (u : URL) : Bool :=
  match oracle u with
  | .resp status _ => status == 200
  | _ => false

/-- The probe success test of the second `main.go` copy (lines 226-238):
`_, err := http.Get(...); if err == nil` alone, ignoring the status code. -/
def probeOkLenient (oracle : URL → Outcome) (u : URL) : Bool :=
  match oracle u with
  | .resp _ _ => true
  | _ => false

/-- One iteration of the `CheckAndRestoreUrls` loop body on map key `u`,
shared shape of all copies with `ok` the copy's success test: on success the
URL string is re-parsed into a fresh value which is appended to `activeUrls`,
and the key `u` is deleted from the map; otherwise nothing changes.
(`url.Parse` of an already parsed URL's string cannot fail, so the logged
parse-error `continue` branch is unreachable.) -/
def restoreStep (ok : URL → Bool) (r : RoundRobinBalancer) (u : URL) : RoundRobinBalancer :=
  if ok u then
    { r with
      activeUrls := r.activeUrls ++ [⟨r.nextId, u.str⟩]
      removedUrls := r.removedUrls.filter (fun v => decide (v ≠ u))
      nextId := r.nextId + 1 }
  else r

/-- The `CheckAndRestoreUrls` loop: iterate over the removed keys, probing
each; a failed probe never stops the loop. Go's map iteration order is
unspecified; it is modelled as the key list's insertion order (the theorems
below are order-independent). -/
def restorePass (ok : URL → Bool) (r : RoundRobinBalancer) : RoundRobinBalancer :=
  r.removedUrls.foldl (restoreStep ok) r

namespace LB

/-- `GetNextURL` from `request/loadbalance.go` (lines 39-53): if `activeUrls`
is empty return `nil`; otherwise read the current index, return
`activeUrls[currentIndex % len(activeUrls)]`, and then increment
`currentIndex` by one (wrapping as `uint64`). -/
def GetNextURL (r : RoundRobinBalancer) : Option URL × RoundRobinBalancer :=
  if h : r.activeUrls.length = 0 then (none, r)
  else
    (some (r.activeUrls.get
        ⟨r.currentIndex % r.activeUrls.length, Nat.mod_lt _ (Nat.pos_of_ne_zero h)⟩),
     { r with currentIndex := (r.currentIndex + 1) % W64 })

/-- `CheckAndRestoreUrls` from `request/loadbalance.go` (lines 68-94), also
the first `main.go` copy (lines 65-91): reinstate exactly the removed URLs
whose probe returns a response with status 200. -/
def CheckAndRestoreUrls (oracle : URL → Outcome) (r : RoundRobinBalancer) : RoundRobinBalancer :=
  restorePass (probeOk oracle) r

end LB

namespace MainPkg

/-- `GetNextURL` from `main.go` (both copies, lines 40-50 and 201-211):
`index := atomic.AddUint64(&r.currentIndex, 1)` increments the index first
and the element at the post-increment index `index % len(activeUrls)` is
returned. -/
def GetNextURL (r : RoundRobinBalancer) : Option URL × RoundRobinBalancer :=
  if h : r.activeUrls.length = 0 then (none, r)
  else
    let index := (r.currentIndex + 1) % W64
    (some (r.activeUrls.get
        ⟨index % r.activeUrls.length, Nat.mod_lt _ (Nat.pos_of_ne_zero h)⟩),
     { r with currentIndex := index })

end MainPkg

namespace MainB

/-- `CheckAndRestoreUrls` from the second `main.go` copy (lines 226-238):
reinstate every removed URL whose probe returns any response at all. -/
def CheckAndRestoreUrls (oracle : URL → Outcome) (r : RoundRobinBalancer) : RoundRobinBalancer :=
  restorePass (probeOkLenient oracle) r

/-- The terminal outcomes of the single-attempt `sendRequest` of the second
`main.go` copy (lines 240-267). -/
inductive SendOutcome
  | noServers
  | removedAfterError (u : URL)
  | nonSuccessStatus (u : URL) (status : Nat)
  | bodyError (u : URL)
  | success (u : URL)
deriving DecidableEq

/-- `sendRequest` from the second `main.go` copy (lines 240-267), a single
attempt: pick the next URL (`main.go`'s increment-first `GetNextURL`); on
`http.Get` error remove the URL and return without retrying; on a non-200
status log and return without removing; on 200 read the body. Besides the
outcome it returns the final balancer and the list of URLs a network request
was issued to (an `http.Get` error with a valid URL is a transport failure,
so `reqErr` cannot arise here; both error outcomes take the same branch). -/
def sendRequest (oracle : URL → Outcome) (r : RoundRobinBalancer) :
    SendOutcome × RoundRobinBalancer × List URL :=
  match MainPkg.GetNextURL r with
  | (none, r1) => (.noServers, r1, [])
  | (some u, r1) =>
    match oracle u with
    | .reqErr => (.removedAfterError u, RemoveURL r1 u, [u])
    | .transportErr => (.removedAfterError u, RemoveURL r1 u, [u])
    | .resp status bodyOk =>
      if status = 200 then
        if bodyOk then (.success u, r1, [u]) else (.bodyError u, r1, [u])
      else (.nonSuccessStatus u status, r1, [u])

end MainB

namespace LB

/-- The ways the `SendRequest` loop of `request/loadbalance.go` (lines
96-132) can return. -/
inductive DispatchResult
  | noServers
  | reqError
  | bodyError (u : URL)
  | success (u : URL)
deriving DecidableEq

/-- Result of one pass through the body of the `SendRequest` loop: `halt`
means the function returns or breaks out of the loop, `again` means control
reaches the end of the `for` body (non-200 status) or the `goto next`
(transport failure) and the loop runs again. The list collects the URLs a
network request was issued to during the pass. -/
inductive StepOut
  | halt (res : DispatchResult) (r : RoundRobinBalancer) (reqs : List URL)
  | again (r : RoundRobinBalancer) (reqs : List URL)
deriving DecidableEq

/-- The body of the `SendRequest` loop of `request/loadbalance.go` (the first
`main.go` copy, lines 93-129, has the same body with the increment-first
`GetNextURL`): `nil` from `GetNextURL` returns; a request-creation error
returns; a transport error removes the URL and jumps back; a 200 response
breaks (or returns on a body read error); any other status closes the body
and lets the loop continue - the URL is not removed and not returned from. -/
def sendStep (oracle : URL → Outcome) (r : RoundRobinBalancer) : StepOut :=
  match GetNextURL r with
  | (none, r1) => .halt .noServers r1 []
  | (some u, r1) =>
    match oracle u with
    | .reqErr => .halt .reqError r1 []
    | .transportErr => .again (RemoveURL r1 u) [u]
    | .resp status bodyOk =>
      if status = 200 then
        if bodyOk then .halt (.success u) r1 [u] else .halt (.bodyError u) r1 [u]
      else .again r1 [u]

/-- `SendRequest`, fuel-indexed: iterate `sendStep` at most `fuel` times.
A `none` outcome means the loop has not terminated within `fuel` passes.
Also returns the final balancer and all URLs requested, in order. -/
def SendRequest (oracle : URL → Outcome) : Nat → RoundRobinBalancer →
    Option DispatchResult × RoundRobinBalancer × List URL
  | 0, r => (none, r, [])
  | fuel + 1, r =>
    match sendStep oracle r with
    | .halt res r1 us => (some res, r1, us)
    | .again r1 us =>
      let rec2 := SendRequest oracle fuel r1
      (rec2.1, rec2.2.1, us ++ rec2.2.2)

/-- `n` consecutive `GetNextURL` calls: the returned URLs in order, and the
final balancer. -/
def iterNext : Nat → RoundRobinBalancer → List URL × RoundRobinBalancer
  | 0, r => ([], r)
  | n + 1, r =>
    match GetNextURL r with
    | (o, r1) =>
      let rest := iterNext n r1
      (o.toList ++ rest.1, rest.2)

end LB

/-- A mutation of the registry: a `RemoveURL` call, or one
`CheckAndRestoreUrls` pass (of the strict copies) with the given probe
oracle. -/
inductive RegOp
  | rem (u : URL)
  | restore (oracle : URL → Outcome)

/-- Execute one registry mutation. -/
def execOp (r : RoundRobinBalancer) : RegOp → RoundRobinBalancer
  | .rem u => RemoveURL r u
  | .restore oracle => LB.CheckAndRestoreUrls oracle r

/-- Execute a sequence of registry mutations in order. -/
def execOps (r : RoundRobinBalancer) : List RegOp → RoundRobinBalancer
  | [] => r
  | op :: ops => execOps (execOp r op) ops

/-- Discipline under which the program itself calls `RemoveURL`: every
removed endpoint is string-present in `activeUrls` at the time of the call
(the dispatcher only removes URLs just handed out by `GetNextURL`). -/
def WfTrace (r : RoundRobinBalancer) : List RegOp → Prop
  | [] => True
  | .rem u :: ops => u.str ∈ strsOf r.activeUrls ∧ WfTrace (RemoveURL r u) ops
  | .restore oracle :: ops => WfTrace (LB.CheckAndRestoreUrls oracle r) ops

/-- The registry invariant of the spec, stated decidably: the active strings
have no duplicates, the removed strings have no duplicates, the removed key
list holds no duplicate references, and no string is both active and
removed. -/
def RegInv (r : RoundRobinBalancer) : Prop :=
  (strsOf r.activeUrls).Nodup ∧ (strsOf r.removedUrls).Nodup ∧
  r.removedUrls.Nodup ∧ (strsOf r.activeUrls) ∩ (strsOf r.removedUrls) = []

/-- Lock and network events of one operation, in program order. -/
inductive Event
  | lock
  | unlock
  | netCall (u : URL)
deriving DecidableEq

/-- Does the trace perform a network call while the lock is held? `depth`
counts currently held acquisitions. -/
def netCallUnderLock : List Event → Nat → Bool
  | [], _ => false
  | .lock :: es, d => netCallUnderLock es (d + 1)
  | .unlock :: es, d => netCallUnderLock es (d - 1)
  | .netCall _ :: es, d => decide (0 < d) || netCallUnderLock es d

namespace LB

/-- Event trace of `GetNextURL`: `r.lock.Lock()`, in-memory work only,
deferred unlock on return. -/
def GetNextURLEvents : List Event := [.lock, .unlock]

/-- Event trace of `RemoveURL`: lock, in-memory splice, unlock. -/
def RemoveURLEvents : List Event := [.lock, .unlock]

/-- Event trace of `CheckAndRestoreUrls` over the removed key list: the lock
is taken once before the loop and released only when the function returns;
inside the loop `http.DefaultClient.Do` issues a network call for every key
whose request object could be built (only a `NewRequestWithContext` error
skips the probe). -/
def CheckAndRestoreUrlsEvents (oracle : URL → Outcome) (removed : List URL) : List Event :=
  [Event.lock] ++
    removed.filterMap (fun u =>
      if oracle u = Outcome.reqErr then none else some (Event.netCall u)) ++
  [Event.unlock]

end LB

/-- Default URL value, used with `List.getD`. -/
def defaultURL : URL := ⟨0, ""⟩

/-- The three backends of `main()` and of the repository's tests. -/
def s81 : String := "http://localhost:81"

/-- Second test backend. -/
def s82 : String := "http://localhost:82"

/-- Third test backend. -/
def s83 : String := "http://localhost:83"

/-- The balancer the tests build: `NewRoundRobinBalancer` over the three
local backends. -/
def testBalancer : RoundRobinBalancer := NewRoundRobinBalancer [s81, s82, s83]

/-- The balancer built from the single backend `http://localhost:81`. -/
def oneBalancer : RoundRobinBalancer := NewRoundRobinBalancer [s81]

/-- The balancer built from the first two local backends. -/
def twoBalancer : RoundRobinBalancer := NewRoundRobinBalancer [s81, s82]

/-- An environment in which every server answers 404 with a readable body. -/
def probe404 : URL → Outcome := fun _ => .resp 404 true

/-- An environment in which every server answers 503 with a readable body. -/
def probe503 : URL → Outcome := fun _ => .resp 503 true

/-- An environment in which every request fails at the transport level. -/
def probeDown : URL → Outcome := fun _ => .transportErr

/-- An environment in which only the reference with pointer identity 100
answers 200; all other requests fail at the transport level. -/
def probeById100 : URL → Outcome :=
  fun u => if u.id = 100 then .resp 200 true else .transportErr

/-- An environment in which `http://localhost:81` answers 503 and every
other server answers 200, all with readable bodies. -/
def probe503On81 : URL → Outcome :=
  fun u => if u.str = s81 then .resp 503 true else .resp 200 true

/-- `oneBalancer` after its only endpoint was removed (with the very
reference `GetNextURL` would hand out). -/
def removedOne : RoundRobinBalancer := RemoveURL oneBalancer ⟨0, s81⟩

/-- Two `RemoveURL` calls carrying distinct references to the string
`http://localhost:81` (the second is a no-op on `activeUrls` but still
enters the pointer-keyed map), then one probe pass in which only the first
reference answers 200. -/
def doubleRemoveTrace : List RegOp :=
  [.rem ⟨100, s81⟩, .rem ⟨101, s81⟩, .restore probeById100]

/-- The registry state reached from `testBalancer` after `2^64 - 1`
selections: same three active backends, cursor at the largest `uint64`
value. -/
def wrapBalancer : RoundRobinBalancer :=
  { activeUrls := [⟨0, s81⟩, ⟨1, s82⟩, ⟨2, s83⟩]
    removedUrls := []
    currentIndex := W64 - 1
    nextId := 3 }

/-- The registry state reached from `oneBalancer` after `2^64 - 1`
selections: one active backend, cursor at the largest `uint64` value. -/
def wrapOne : RoundRobinBalancer :=
  { activeUrls := [⟨0, s81⟩]
    removedUrls := []
    currentIndex := W64 - 1
    nextId := 1 }

/-! ## Basic lemmas about the embedded operations -/

theorem strsOf_append (l₁ l₂ : List URL) : strsOf (l₁ ++ l₂) = strsOf l₁ ++ strsOf l₂ :=
  List.map_append _ _ _

theorem strsOf_new (urls : List String) :
    strsOf (NewRoundRobinBalancer urls).activeUrls = urls := by
  simp only [NewRoundRobinBalancer, strsOf, List.map_map]
  have : (URL.str ∘ fun p : Nat × String => (⟨p.1, p.2⟩ : URL)) = Prod.snd := rfl
  rw [this, List.enum_map_snd]

theorem eraseFirstStr_of_not_mem {l : List URL} {s : String}
    (h : s ∉ strsOf l) : eraseFirstStr l s = l := by
  induction l with
  | nil => rfl
  | cons u us ih =>
    have hu : ¬ u.str = s := by
      intro he; exact h (by simp [strsOf, he])
    have hus : s ∉ strsOf us := by
      intro hm; exact h (by simp [strsOf] at hm ⊢; exact Or.inr hm)
    simp [eraseFirstStr, hu, ih hus]

theorem strsOf_eraseFirstStr (l : List URL) (s : String) :
    strsOf (eraseFirstStr l s) = (strsOf l).erase s := by
  induction l with
  | nil => rfl
  | cons u us ih =>
    by_cases hu : u.str = s
    · subst hu
      simp [eraseFirstStr, strsOf, List.erase_cons_head]
    · have : ¬ (u.str == s) = true := by simpa using hu
      simp only [eraseFirstStr, if_neg hu, strsOf, List.map_cons,
        List.erase_cons_tail this]
      exact congrArg (u.str :: ·) ih

theorem eraseFirstStr_sublist (l : List URL) (s : String) :
    (eraseFirstStr l s).Sublist l := by
  induction l with
  | nil => exact List.Sublist.refl _
  | cons u us ih =>
    by_cases hu : u.str = s
    · simp only [eraseFirstStr, if_pos hu]
      exact (List.sublist_cons_self u us)
    · simp only [eraseFirstStr, if_neg hu]
      exact ih.cons₂ u

theorem length_eraseFirstStr {l : List URL} {s : String}
    (h : s ∈ strsOf l) : (eraseFirstStr l s).length + 1 = l.length := by
  induction l with
  | nil => cases h
  | cons u us ih =>
    by_cases hu : u.str = s
    · simp [eraseFirstStr, hu]
    · have hus : s ∈ strsOf us := by
        rcases (by simpa [strsOf] using h : s = u.str ∨ ∃ a ∈ us, a.str = s) with h1 | h1
        · exact absurd h1.symm hu
        · rcases h1 with ⟨a, ha, has⟩
          exact (by simp [strsOf]; exact ⟨a, ha, has⟩)
      simp only [eraseFirstStr, if_neg hu, List.length_cons]
      rw [← ih hus]

namespace LB

theorem GetNextURL_empty {r : RoundRobinBalancer} (h : r.activeUrls = []) :
    GetNextURL r = (none, r) := by
  have hl : r.activeUrls.length = 0 := by simp [h]
  rw [GetNextURL, dif_pos hl]

theorem GetNextURL_pos {r : RoundRobinBalancer} (h : r.activeUrls ≠ []) :
    GetNextURL r =
      (some (r.activeUrls.get
        ⟨r.currentIndex % r.activeUrls.length, Nat.mod_lt _ (List.length_pos.mpr h)⟩),
       { r with currentIndex := (r.currentIndex + 1) % W64 }) := by
  have hl : r.activeUrls.length ≠ 0 := by
    intro h0; exact h (List.length_eq_zero.mp h0)
  rw [GetNextURL, dif_neg hl]

theorem GetNextURL_mem {r : RoundRobinBalancer} {u : URL}
    (h : (GetNextURL r).1 = some u) : u ∈ r.activeUrls := by
  by_cases he : r.activeUrls = []
  · rw [GetNextURL_empty he] at h; cases h
  · rw [GetNextURL_pos he] at h
    have := Option.some.inj h
    rw [← this]
    exact List.get_mem _ _ _

end LB

namespace MainPkg

theorem GetNextURL_empty_main {r : RoundRobinBalancer} (h : r.activeUrls = []) :
    GetNextURL r = (none, r) := by
  have hl : r.activeUrls.length = 0 := by simp [h]
  rw [GetNextURL, dif_pos hl]

theorem GetNextURL_pos_main {r : RoundRobinBalancer} (h : r.activeUrls ≠ []) :
    GetNextURL r =
      (some (r.activeUrls.get
        ⟨(r.currentIndex + 1) % W64 % r.activeUrls.length,
         Nat.mod_lt _ (List.length_pos.mpr h)⟩),
       { r with currentIndex := (r.currentIndex + 1) % W64 }) := by
  have hl : r.activeUrls.length ≠ 0 := by
    intro h0; exact h (List.length_eq_zero.mp h0)
  rw [GetNextURL, dif_neg hl]

theorem GetNextURL_mem_main {r : RoundRobinBalancer} {u : URL}
    (h : (GetNextURL r).1 = some u) : u ∈ r.activeUrls := by
  by_cases he : r.activeUrls = []
  · rw [GetNextURL_empty_main he] at h; cases h
  · rw [GetNextURL_pos_main he] at h
    have := Option.some.inj h
    rw [← this]
    exact List.get_mem _ _ _

end MainPkg

/-! ## Restoration: strings only ever move out of the removed key list -/

theorem foldl_restoreStep_strs_subset (ok : URL → Bool) :
    ∀ (L : List URL) (r : RoundRobinBalancer) (s : String),
      s ∈ strsOf ((L.foldl (restoreStep ok) r).activeUrls) →
      s ∈ strsOf r.activeUrls ∨ s ∈ strsOf L := by
  intro L
  induction L with
  | nil => intro r s h; exact Or.inl h
  | cons u L ih =>
    intro r s h
    rw [List.foldl_cons] at h
    rcases ih _ s h with h1 | h1
    · by_cases hok : ok u = true
      · rw [restoreStep, if_pos hok] at h1
        simp only [strsOf, List.map_append] at h1
        rcases List.mem_append.mp h1 with h2 | h2
        · exact Or.inl h2
        · have hs : s = u.str := by simpa using h2
          exact Or.inr (by simp [strsOf, hs])
      · rw [restoreStep, if_neg hok] at h1
        exact Or.inl h1
    · refine Or.inr ?_
      simp only [strsOf, List.map_cons, List.mem_cons]
      exact Or.inr h1

/-! ## Claim C4 -/

/-- Claim C4 (code bug). The claim says every copy of `GetNextURL` returns
the endpoint at position `cursor mod len(active)` and then advances the
cursor by one. This is what the `loadbalance.go` copy does, and what the
repository's own `TestRoundRobinBalancer` expects (the three backends in
order, `http://localhost:81` first). But the `main.go` copies increment
first: on the fresh three-backend balancer their first call returns the
element at position `(0+1) mod 3 = 1`, namely `http://localhost:82`, so the
code contradicts its own test. This theorem evaluates both copies at that
failing input. -/
theorem c4_main_getNextURL_divergence :
    testBalancer.currentIndex = 0 ∧
    (LB.GetNextURL testBalancer).1 = some ⟨0, s81⟩ ∧
    (LB.GetNextURL testBalancer).2.currentIndex = 1 ∧
    (MainPkg.GetNextURL testBalancer).1 = some ⟨1, s82⟩ ∧
    (MainPkg.GetNextURL testBalancer).2.currentIndex = 1 := by
  decide

/-! ## Claim C9 -/

/-- Claim C9 (confirmed). Both `GetNextURL` shapes are total and never
fault: the length-zero guard means the modulo index is computed only on a
non-empty list, where it is in bounds, the returned URL is always an element
of `activeUrls`, and the empty signal is produced exactly when `activeUrls`
is empty. -/
theorem c9_getNextURL_total (r : RoundRobinBalancer) :
    ((LB.GetNextURL r).1 = none ↔ r.activeUrls = []) ∧
    (∀ u, (LB.GetNextURL r).1 = some u → u ∈ r.activeUrls) ∧
    ((MainPkg.GetNextURL r).1 = none ↔ r.activeUrls = []) ∧
    (∀ u, (MainPkg.GetNextURL r).1 = some u → u ∈ r.activeUrls) := by
  refine ⟨⟨?_, ?_⟩, ?_, ⟨?_, ?_⟩, ?_⟩
  · intro h
    by_contra he
    rw [LB.GetNextURL_pos he] at h
    cases h
  · intro h
    rw [LB.GetNextURL_empty h]
  · intro u h
    exact LB.GetNextURL_mem h
  · intro h
    by_contra he
    rw [MainPkg.GetNextURL_pos_main he] at h
    cases h
  · intro h
    rw [MainPkg.GetNextURL_empty_main h]
  · intro u h
    exact MainPkg.GetNextURL_mem_main h

/-- Witness for C9 at concrete inputs: on the empty registry both copies
signal empty, and on the one-backend registry the returned URL is a member
of the active list. -/
theorem c9_witness :
    ((LB.GetNextURL (NewRoundRobinBalancer [])).1 = none) ∧
    (⟨0, s81⟩ : URL) ∈ oneBalancer.activeUrls := by
  constructor
  · exact (c9_getNextURL_total (NewRoundRobinBalancer [])).1.mpr rfl
  · exact (c9_getNextURL_total oneBalancer).2.1 ⟨0, s81⟩ (by decide)

/-! ## Claim C3 -/

/-- Claim C3, counterexample. Removing `http://x`, which is not in the
(one-backend) registry at all, is not a no-op: the removed set, previously
empty, afterwards contains the endpoint; only the active sequence is left
unchanged. -/
theorem c3_counterexample :
    (⟨7, "http://x"⟩ : URL).str ∉ strsOf oneBalancer.activeUrls ∧
    oneBalancer.removedUrls = [] ∧
    (RemoveURL oneBalancer ⟨7, "http://x"⟩).removedUrls = [⟨7, "http://x"⟩] ∧
    (RemoveURL oneBalancer ⟨7, "http://x"⟩).activeUrls = oneBalancer.activeUrls := by
  decide

/-- Claim C3 as amended: removing an endpoint not string-present in the
active sequence leaves the active sequence unchanged but unconditionally
records the endpoint in the removed key set (which therefore changes unless
that exact reference is already a key); and a probe pass never reinstates a
string absent from the removed set - a string not in `removed` and not in
`active` is still absent from `active` afterwards. -/
theorem c3_remove_absent_amended (r : RoundRobinBalancer) (u : URL)
    (oracle : URL → Outcome) (h : u.str ∉ strsOf r.activeUrls) :
    (RemoveURL r u).activeUrls = r.activeUrls ∧
    (∀ v, v ∈ (RemoveURL r u).removedUrls ↔ v ∈ r.removedUrls ∨ v = u) ∧
    (∀ s, s ∉ strsOf r.removedUrls → s ∉ strsOf r.activeUrls →
      s ∉ strsOf (LB.CheckAndRestoreUrls oracle r).activeUrls) := by
  refine ⟨?_, ?_, ?_⟩
  · simp only [RemoveURL]
    exact eraseFirstStr_of_not_mem h
  · intro v
    simp only [RemoveURL]
    by_cases hm : u ∈ r.removedUrls
    · rw [if_pos hm]
      constructor
      · intro hv; exact Or.inl hv
      · intro hv
        rcases hv with hv | hv
        · exact hv
        · rw [hv]; exact hm
    · rw [if_neg hm]
      simp
  · intro s hrem hact habs
    rcases foldl_restoreStep_strs_subset (probeOk oracle) r.removedUrls r s habs with
      h1 | h1
    · exact hact h1
    · exact hrem h1

/-- Witness for the amended C3 at a concrete input. -/
theorem c3_amended_witness :
    (RemoveURL oneBalancer ⟨7, "http://x"⟩).activeUrls = oneBalancer.activeUrls ∧
    "http://y" ∉ strsOf (LB.CheckAndRestoreUrls probe404 oneBalancer).activeUrls := by
  have h := c3_remove_absent_amended oneBalancer ⟨7, "http://x"⟩ probe404 (by decide)
  exact ⟨h.1, h.2.2 "http://y" (by decide) (by decide)⟩

/-! ## Claim C5 -/

/-- Claim C5, counterexample. The copy of `CheckAndRestoreUrls` at `main.go`
lines 226-238 checks only `err == nil`: with every probe answering 404, it
still reinstates the removed endpoint, while the strict `loadbalance.go`
copy leaves it removed. So "only status 200 reinstates" does not hold for
every copy in the source. -/
theorem c5_counterexample :
    strsOf removedOne.activeUrls = [] ∧
    removedOne.removedUrls = [⟨0, s81⟩] ∧
    (MainB.CheckAndRestoreUrls probe404 removedOne).removedUrls = [] ∧
    strsOf (MainB.CheckAndRestoreUrls probe404 removedOne).activeUrls = [s81] ∧
    (LB.CheckAndRestoreUrls probe404 removedOne).removedUrls = [⟨0, s81⟩] := by
  decide

/-! ## Claim C1 -/

/-- Claim C1, counterexample. `SendRequest` (the loop dispatcher of
`request/loadbalance.go`) with two endpoints of which the first answers 503
and the second 200: the dispatch does not stop at the non-success status -
a second request is issued to the other endpoint and succeeds there. The
endpoint is, as the claim also says, not removed. -/
theorem c1_counterexample :
    (LB.SendRequest probe503On81 3 twoBalancer).2.2 = [⟨0, s81⟩, ⟨1, s82⟩] ∧
    (LB.SendRequest probe503On81 3 twoBalancer).1 =
      some (LB.DispatchResult.success ⟨1, s82⟩) ∧
    (LB.SendRequest probe503On81 3 twoBalancer).2.1.removedUrls = [] := by
  decide

/-! ## Claim C2 -/

/-- Claim C2, counterexample. Start from the registry over
`http://localhost:81`; remove it twice through two distinct references to
the same string (the second call is a no-op on `activeUrls` but still enters
the pointer-keyed removed map), then run one probe pass in which only the
first reference answers 200. The string is reinstated into `activeUrls`
while the second reference remains a removed key: the active sequence and
the removed set are no longer disjoint under string equality. -/
theorem c2_counterexample :
    s81 ∈ strsOf (execOps oneBalancer doubleRemoveTrace).activeUrls ∧
    s81 ∈ strsOf (execOps oneBalancer doubleRemoveTrace).removedUrls := by
  decide

/-! ## Claim C10 -/

/-- Claim C10, counterexample. One removed endpoint whose probe fails at the
transport level: the probe's network call happens at lock depth 1 - inside
`CheckAndRestoreUrls`'s critical section - so the registry lock is held
across a network round trip. -/
theorem c10_counterexample :
    netCallUnderLock (LB.CheckAndRestoreUrlsEvents probeDown [⟨0, s81⟩]) 0 = true := by
  decide

/-- Claim C10 as amended: `GetNextURL` and `RemoveURL` hold the lock only
for in-memory transitions and perform no network call at all, but
`CheckAndRestoreUrls` acquires the lock before its probe loop and releases
it only on return, so a network call occurs inside its critical section
exactly when some removed URL is actually probed (that is, unless every
request object fails to build). -/
theorem c10_lock_across_probes_amended (oracle : URL → Outcome) (removed : List URL) :
    netCallUnderLock LB.GetNextURLEvents 0 = false ∧
    netCallUnderLock LB.RemoveURLEvents 0 = false ∧
    netCallUnderLock (LB.CheckAndRestoreUrlsEvents oracle removed) 0 =
      removed.any (fun u => !(decide (oracle u = Outcome.reqErr))) := by
  refine ⟨rfl, rfl, ?_⟩
  rw [LB.CheckAndRestoreUrlsEvents, List.singleton_append]
  show netCallUnderLock
      (removed.filterMap (fun u =>
        if oracle u = Outcome.reqErr then none else some (Event.netCall u)) ++
        [Event.unlock]) 1 =
    removed.any (fun u => !(decide (oracle u = Outcome.reqErr)))
  induction removed with
  | nil => rfl
  | cons u rest ih =>
    rw [List.any_cons]
    by_cases horc : oracle u = Outcome.reqErr
    · rw [List.filterMap_cons_none (by simp [horc]), ih, horc]
      simp
    · rw [@List.filterMap_cons_some URL Event
        (fun v => if oracle v = Outcome.reqErr then none else some (Event.netCall v))
        u rest (Event.netCall u) (by simp [horc]), List.cons_append]
      simp [netCallUnderLock, horc]

/-! ## The probe pass in closed form -/

theorem restoreStep_neg {ok : URL → Bool} {r : RoundRobinBalancer} {u : URL}
    (h : ¬ ok u = true) : restoreStep ok r u = r := by
  rw [restoreStep, if_neg h]

theorem restoreStep_pos_active {ok : URL → Bool} {r : RoundRobinBalancer} {u : URL}
    (h : ok u = true) :
    (restoreStep ok r u).activeUrls = r.activeUrls ++ [⟨r.nextId, u.str⟩] := by
  rw [restoreStep, if_pos h]

theorem restoreStep_pos_removed {ok : URL → Bool} {r : RoundRobinBalancer} {u : URL}
    (h : ok u = true) :
    (restoreStep ok r u).removedUrls = r.removedUrls.filter (fun v => decide (v ≠ u)) := by
  rw [restoreStep, if_pos h]

theorem restoreStep_pos_index {ok : URL → Bool} {r : RoundRobinBalancer} {u : URL}
    (h : ok u = true) :
    (restoreStep ok r u).currentIndex = r.currentIndex := by
  rw [restoreStep, if_pos h]

theorem foldl_restoreStep_spec (ok : URL → Bool) :
    ∀ (L P : List URL) (r : RoundRobinBalancer),
      r.removedUrls = P ++ L → (P ++ L).Nodup →
      ((L.foldl (restoreStep ok) r).removedUrls
          = P ++ L.filter (fun u => !(ok u)) ∧
       strsOf (L.foldl (restoreStep ok) r).activeUrls
          = strsOf r.activeUrls ++ strsOf (L.filter ok) ∧
       (L.foldl (restoreStep ok) r).currentIndex = r.currentIndex) := by
  intro L
  induction L with
  | nil =>
    intro P r hrem _
    refine ⟨by simpa using hrem, ?_, rfl⟩
    simp [strsOf]
  | cons u L ih =>
    intro P r hrem hnd
    have hndPL : (P ++ L).Nodup := by
      refine List.Nodup.sublist ?_ hnd
      exact List.Sublist.append_left (List.sublist_cons_self u L) P
    have hu_notin_P : u ∉ P := by
      intro hm
      rcases List.nodup_append.mp hnd with ⟨_, _, hdisj⟩
      exact hdisj hm (List.mem_cons_self u L)
    have hu_notin_L : u ∉ L := by
      rcases List.nodup_append.mp hnd with ⟨_, hUL, _⟩
      exact (List.nodup_cons.mp hUL).1
    rw [List.foldl_cons]
    by_cases hok : ok u = true
    · have hrem2 : (restoreStep ok r u).removedUrls = P ++ L := by
        rw [restoreStep_pos_removed hok, hrem, List.filter_append]
        have hP : P.filter (fun v => decide (v ≠ u)) = P := by
          rw [List.filter_eq_self]
          intro a ha
          simp only [decide_eq_true_eq]
          intro he; rw [he] at ha; exact hu_notin_P ha
        have hL : (u :: L).filter (fun v => decide (v ≠ u)) = L := by
          rw [List.filter_cons_of_neg (by simp)]
          rw [List.filter_eq_self]
          intro a ha
          simp only [decide_eq_true_eq]
          intro he; rw [he] at ha; exact hu_notin_L ha
        rw [hP, hL]
      obtain ⟨h1, h2, h3⟩ := ih P (restoreStep ok r u) hrem2 hndPL
      refine ⟨?_, ?_, ?_⟩
      · rw [h1, List.filter_cons_of_neg (by simp [hok])]
      · rw [h2, restoreStep_pos_active hok, List.filter_cons_of_pos hok]
        simp [strsOf]
      · rw [h3, restoreStep_pos_index hok]
    · rw [restoreStep_neg hok]
      have hrem2 : r.removedUrls = (P ++ [u]) ++ L := by
        rw [hrem]; simp
      have hnd2 : ((P ++ [u]) ++ L).Nodup := by
        simpa using hnd
      obtain ⟨h1, h2, h3⟩ := ih (P ++ [u]) r hrem2 hnd2
      refine ⟨?_, ?_, h3⟩
      · rw [h1, List.filter_cons_of_pos (by simp [hok])]
        simp
      · rw [h2, List.filter_cons_of_neg (by simp [hok])]

theorem restorePass_spec (ok : URL → Bool) (r : RoundRobinBalancer)
    (hnd : r.removedUrls.Nodup) :
    (restorePass ok r).removedUrls = r.removedUrls.filter (fun u => !(ok u)) ∧
    strsOf (restorePass ok r).activeUrls
      = strsOf r.activeUrls ++ strsOf (r.removedUrls.filter ok) ∧
    (restorePass ok r).currentIndex = r.currentIndex := by
  have h := foldl_restoreStep_spec ok r.removedUrls [] r (by simp) (by simpa using hnd)
  simpa [restorePass] using h

/-! ## Claim C5, amended -/

/-- Claim C5 as amended: the strict copies (`request/loadbalance.go` and
`main.go` lines 65-91) reinstate exactly the removed URLs whose probe yields
a response with status exactly 200 (`probeOk`), while the lenient copy at
`main.go` lines 226-238 reinstates every removed URL whose probe yields any
response at all (`probeOkLenient`); the two success tests are characterised
in the last two conjuncts. -/
theorem c5_probe_policy_amended (oracle : URL → Outcome) (r : RoundRobinBalancer)
    (hnd : r.removedUrls.Nodup) :
    (LB.CheckAndRestoreUrls oracle r).removedUrls
      = r.removedUrls.filter (fun u => !(probeOk oracle u)) ∧
    strsOf (LB.CheckAndRestoreUrls oracle r).activeUrls
      = strsOf r.activeUrls ++ strsOf (r.removedUrls.filter (probeOk oracle)) ∧
    (MainB.CheckAndRestoreUrls oracle r).removedUrls
      = r.removedUrls.filter (fun u => !(probeOkLenient oracle u)) ∧
    strsOf (MainB.CheckAndRestoreUrls oracle r).activeUrls
      = strsOf r.activeUrls ++ strsOf (r.removedUrls.filter (probeOkLenient oracle)) ∧
    (∀ u, probeOk oracle u = true ↔ ∃ b, oracle u = Outcome.resp 200 b) ∧
    (∀ u, probeOkLenient oracle u = true ↔ ∃ s b, oracle u = Outcome.resp s b) := by
  obtain ⟨h1, h2, _⟩ := restorePass_spec (probeOk oracle) r hnd
  obtain ⟨h3, h4, _⟩ := restorePass_spec (probeOkLenient oracle) r hnd
  refine ⟨h1, h2, h3, h4, ?_, ?_⟩
  · intro u
    cases horc : oracle u with
    | reqErr => simp [probeOk, horc]
    | transportErr => simp [probeOk, horc]
    | resp s b =>
      simp only [probeOk, horc]
      constructor
      · intro hs
        have hs2 : s = 200 := by simpa using hs
        exact ⟨b, by rw [hs2]⟩
      · rintro ⟨b2, hb⟩
        cases hb
        simp
  · intro u
    cases horc : oracle u with
    | reqErr => simp [probeOkLenient, horc]
    | transportErr => simp [probeOkLenient, horc]
    | resp s b => simp [probeOkLenient, horc]

/-- Witness for the amended C5 at a concrete input: with every probe
answering 404, the strict pass keeps the removed key while the lenient pass
reinstates the string. -/
theorem c5_amended_witness :
    (LB.CheckAndRestoreUrls probe404 removedOne).removedUrls
      = removedOne.removedUrls.filter (fun u => !(probeOk probe404 u)) ∧
    strsOf (MainB.CheckAndRestoreUrls probe404 removedOne).activeUrls
      = strsOf removedOne.activeUrls
        ++ strsOf (removedOne.removedUrls.filter (probeOkLenient probe404)) := by
  have h := c5_probe_policy_amended probe404 removedOne (by decide)
  exact ⟨h.1, h.2.2.2.1⟩

/-! ## Claim C1, amended -/

/-- Claim C1 as amended: in every dispatcher copy a non-success status never
triggers removal; the single-attempt dispatcher (`main.go` lines 240-267)
stops without retrying and without touching the registry beyond the cursor,
while the loop dispatchers (`SendRequest` in `request/loadbalance.go` and the
loop `sendRequest` at `main.go` lines 93-129) keep the endpoint and let the
loop run again, retrying against the next endpoint. -/
theorem c1_non_success_amended (oracle : URL → Outcome) (r r1 : RoundRobinBalancer)
    (u : URL) (status : Nat) (bodyOk : Bool)
    (hresp : oracle u = Outcome.resp status bodyOk) (hst : status ≠ 200) :
    (LB.GetNextURL r = (some u, r1) →
      LB.sendStep oracle r = LB.StepOut.again r1 [u]) ∧
    (MainPkg.GetNextURL r = (some u, r1) →
      MainB.sendRequest oracle r = (MainB.SendOutcome.nonSuccessStatus u status, r1, [u])) := by
  constructor
  · intro hget
    simp only [LB.sendStep, hget, hresp]
    rw [if_neg hst]
  · intro hget
    simp only [MainB.sendRequest, hget, hresp]
    rw [if_neg hst]

/-- Witness for the amended C1 at a concrete input: on the one-backend
registry with a 404-answering server, the loop body ends in a retry with the
endpoint kept, and the single-attempt dispatcher ends in the non-success
outcome with exactly one request issued. -/
theorem c1_amended_witness :
    LB.sendStep probe404 oneBalancer =
      LB.StepOut.again ((LB.GetNextURL oneBalancer).2) [⟨0, s81⟩] ∧
    MainB.sendRequest probe404 oneBalancer =
      (MainB.SendOutcome.nonSuccessStatus ⟨0, s81⟩ 404,
        (LB.GetNextURL oneBalancer).2, [⟨0, s81⟩]) := by
  have h := c1_non_success_amended probe404 oneBalancer
    ((LB.GetNextURL oneBalancer).2) ⟨0, s81⟩ 404 true (by decide) (by decide)
  exact ⟨h.1 (by decide), h.2 (by decide)⟩

/-! ## Claim C6 -/

theorem sendStep_503 (r : RoundRobinBalancer) (h : r.activeUrls ≠ []) :
    ∃ us, LB.sendStep probe503 r =
      LB.StepOut.again { r with currentIndex := (r.currentIndex + 1) % W64 } us := by
  refine ⟨[r.activeUrls.get ⟨r.currentIndex % r.activeUrls.length,
    Nat.mod_lt _ (List.length_pos.mpr h)⟩], ?_⟩
  simp [LB.sendStep, LB.GetNextURL_pos h, probe503]

theorem SendRequest_503_never_halts :
    ∀ (n : Nat) (r : RoundRobinBalancer), r.activeUrls ≠ [] →
      (LB.SendRequest probe503 n r).1 = none := by
  intro n
  induction n with
  | zero => intro r _; rfl
  | succ n ih =>
    intro r h
    obtain ⟨us, hstep⟩ := sendStep_503 r h
    simp only [LB.SendRequest, hstep]
    exact ih _ h

theorem sendStep_empty (oracle : URL → Outcome) (r : RoundRobinBalancer)
    (h : r.activeUrls = []) :
    LB.sendStep oracle r = LB.StepOut.halt LB.DispatchResult.noServers r [] := by
  simp only [LB.sendStep, LB.GetNextURL_empty h]

theorem LB.GetNextURL_state (r : RoundRobinBalancer) :
    (LB.GetNextURL r).2.activeUrls = r.activeUrls ∧
    (LB.GetNextURL r).2.removedUrls = r.removedUrls ∧
    (LB.GetNextURL r).2.nextId = r.nextId := by
  by_cases he : r.activeUrls = []
  · rw [LB.GetNextURL_empty he]; exact ⟨rfl, rfl, rfl⟩
  · rw [LB.GetNextURL_pos he]; exact ⟨rfl, rfl, rfl⟩

/-- Claim C6, counterexample. With the single endpoint answering 503 on
every request (no transport error ever occurs), the `SendRequest` loop never
removes anything and never breaks: no amount of fuel makes it halt, so that
dispatch call does not terminate, refuting termination for every outcome
oracle. -/
theorem c6_counterexample :
    ¬ ∃ n : Nat, (LB.SendRequest probe503 n oneBalancer).1.isSome = true := by
  rintro ⟨n, hn⟩
  rw [SendRequest_503_never_halts n oneBalancer (by decide)] at hn
  cases hn

theorem SendRequest_halts (oracle : URL → Outcome)
    (hor : ∀ u s b, oracle u = Outcome.resp s b → s = 200) :
    ∀ (k : Nat) (r : RoundRobinBalancer), r.activeUrls.length ≤ k →
      (LB.SendRequest oracle (k + 1) r).1.isSome = true := by
  intro k
  induction k with
  | zero =>
    intro r hlen
    have he : r.activeUrls = [] := List.length_eq_zero.mp (Nat.le_zero.mp hlen)
    simp only [LB.SendRequest, sendStep_empty oracle r he, Option.isSome_some]
  | succ k ih =>
    intro r hlen
    by_cases he : r.activeUrls = []
    · simp only [LB.SendRequest, sendStep_empty oracle r he, Option.isSome_some]
    · obtain ⟨u, r1, hget, hr1a, hmem⟩ :
          ∃ u r1, LB.GetNextURL r = (some u, r1) ∧
            r1.activeUrls = r.activeUrls ∧ u ∈ r.activeUrls := by
        refine ⟨_, _, LB.GetNextURL_pos he, rfl, List.get_mem _ _ _⟩
      cases horc : oracle u with
      | reqErr =>
        simp only [LB.SendRequest, LB.sendStep, hget, horc, Option.isSome_some]
      | transportErr =>
        have hmemstr : u.str ∈ strsOf r1.activeUrls := by
          rw [hr1a]
          exact List.mem_map.mpr ⟨u, hmem, rfl⟩
        have hshrink := length_eraseFirstStr hmemstr
        have hlen1 : r1.activeUrls.length = r.activeUrls.length := by rw [hr1a]
        have hlen2 : (RemoveURL r1 u).activeUrls.length ≤ k := by
          have hra : (RemoveURL r1 u).activeUrls = eraseFirstStr r1.activeUrls u.str := rfl
          rw [hra]
          omega
        have hstep : LB.sendStep oracle r = LB.StepOut.again (RemoveURL r1 u) [u] := by
          simp only [LB.sendStep, hget, horc]
        simp only [LB.SendRequest, hstep]
        exact ih _ hlen2
      | resp s b =>
        have hs := hor _ _ _ horc
        subst hs
        cases b with
        | false =>
          have hstep : LB.sendStep oracle r =
              LB.StepOut.halt (LB.DispatchResult.bodyError u) r1 [u] := by
            simp [LB.sendStep, hget, horc]
          simp only [LB.SendRequest, hstep, Option.isSome_some]
        | true =>
          have hstep : LB.sendStep oracle r =
              LB.StepOut.halt (LB.DispatchResult.success u) r1 [u] := by
            simp [LB.sendStep, hget, horc]
          simp only [LB.SendRequest, hstep, Option.isSome_some]

/-- Claim C6 as amended: if no endpoint ever answers with a non-success
status (every outcome is a request-creation error, a transport failure or a
status-200 response) then one `SendRequest` call terminates within
`len(active) + 1` loop passes, because every transport failure removes the
selected endpoint - the second conjunct shows the active sequence strictly
shrinks on each such retry - so the loop halts at the latest when
`GetNextURL` signals empty. When some endpoint keeps answering a
non-success status the loop need not terminate (see the counterexample). -/
theorem c6_termination_amended (oracle : URL → Outcome)
    (hor : ∀ u s b, oracle u = Outcome.resp s b → s = 200) (r : RoundRobinBalancer) :
    (LB.SendRequest oracle (r.activeUrls.length + 1) r).1.isSome = true ∧
    (∀ u r1, LB.GetNextURL r = (some u, r1) → oracle u = Outcome.transportErr →
      LB.sendStep oracle r = LB.StepOut.again (RemoveURL r1 u) [u] ∧
      (RemoveURL r1 u).activeUrls.length + 1 = r1.activeUrls.length) := by
  constructor
  · exact SendRequest_halts oracle hor r.activeUrls.length r (Nat.le_refl _)
  · intro u r1 hget horc
    have hmem : u ∈ r.activeUrls := LB.GetNextURL_mem (by rw [hget])
    have hr1 : r1 = (LB.GetNextURL r).2 := by rw [hget]
    have hr1a : r1.activeUrls = r.activeUrls := by
      rw [hr1]; exact (LB.GetNextURL_state r).1
    refine ⟨by simp only [LB.sendStep, hget, horc], ?_⟩
    have hmemstr : u.str ∈ strsOf r1.activeUrls := by
      rw [hr1a]
      exact List.mem_map.mpr ⟨u, hmem, rfl⟩
    exact length_eraseFirstStr hmemstr

/-- Witness for the amended C6 at a concrete input: with every endpoint
failing at the transport level, the one-backend dispatch halts within two
loop passes. -/
theorem c6_amended_witness :
    (LB.SendRequest probeDown (oneBalancer.activeUrls.length + 1) oneBalancer).1.isSome
      = true :=
  (c6_termination_amended probeDown (fun _ _ _ h => Outcome.noConfusion h) oneBalancer).1

/-! ## Claim C2: the registry invariant -/

theorem regInv_new {urls : List String} (h : urls.Nodup) :
    RegInv (NewRoundRobinBalancer urls) := by
  refine ⟨?_, ?_, ?_, ?_⟩
  · rw [strsOf_new]; exact h
  · simp [NewRoundRobinBalancer, strsOf]
  · simp [NewRoundRobinBalancer]
  · simp [NewRoundRobinBalancer, strsOf]

theorem regInv_remove {r : RoundRobinBalancer} {u : URL} (hinv : RegInv r)
    (hmem : u.str ∈ strsOf r.activeUrls) : RegInv (RemoveURL r u) := by
  obtain ⟨hA, hRs, hRr, hdisj⟩ := hinv
  have hdisj2 : ∀ s, s ∈ strsOf r.activeUrls → s ∉ strsOf r.removedUrls := by
    intro s hs hm
    have : s ∈ strsOf r.activeUrls ∩ strsOf r.removedUrls :=
      List.mem_inter_iff.mpr ⟨hs, hm⟩
    rw [hdisj] at this
    cases this
  have hun : u.str ∉ strsOf r.removedUrls := hdisj2 u.str hmem
  have hu_not_key : u ∉ r.removedUrls := by
    intro hm
    exact hun (List.mem_map.mpr ⟨u, hm, rfl⟩)
  have hact : strsOf (RemoveURL r u).activeUrls = (strsOf r.activeUrls).erase u.str :=
    strsOf_eraseFirstStr _ _
  have hrem : (RemoveURL r u).removedUrls = r.removedUrls ++ [u] := by
    rw [RemoveURL, if_neg hu_not_key]
  refine ⟨?_, ?_, ?_, ?_⟩
  · rw [hact]
    exact hA.erase _
  · rw [hrem, strsOf_append]
    refine List.Nodup.append hRs (by simp [strsOf]) ?_
    intro s hs hm
    have : s = u.str := by simpa [strsOf] using hm
    rw [this] at hs
    exact hun hs
  · rw [hrem]
    refine List.Nodup.append hRr (List.nodup_singleton u) ?_
    intro v hv hm
    have : v = u := by simpa using hm
    rw [this] at hv
    exact hu_not_key hv
  · rw [List.eq_nil_iff_forall_not_mem]
    intro s hs
    have h2 := List.mem_inter_iff.mp hs
    have hsa := h2.1
    have hsr := h2.2
    rw [hact] at hsa
    obtain ⟨hne, hsA⟩ := hA.mem_erase_iff.mp hsa
    rw [hrem, strsOf_append] at hsr
    rcases List.mem_append.mp hsr with h3 | h3
    · exact hdisj2 s hsA h3
    · exact hne (by simpa [strsOf] using h3)

theorem regInv_restore {r : RoundRobinBalancer} (oracle : URL → Outcome)
    (hinv : RegInv r) : RegInv (LB.CheckAndRestoreUrls oracle r) := by
  obtain ⟨hA, hRs, hRr, hdisj⟩ := hinv
  have hdisj2 : ∀ s, s ∈ strsOf r.activeUrls → s ∉ strsOf r.removedUrls := by
    intro s hs hm
    have : s ∈ strsOf r.activeUrls ∩ strsOf r.removedUrls :=
      List.mem_inter_iff.mpr ⟨hs, hm⟩
    rw [hdisj] at this
    cases this
  obtain ⟨h1, h2, _⟩ := restorePass_spec (probeOk oracle) r hRr
  have hsubR : ∀ (p : URL → Bool) (s : String),
      s ∈ strsOf (r.removedUrls.filter p) → s ∈ strsOf r.removedUrls := by
    intro p s hs
    exact List.Sublist.mem hs ((List.filter_sublist _).map URL.str)
  show RegInv (restorePass (probeOk oracle) r)
  refine ⟨?_, ?_, ?_, ?_⟩
  · rw [h2]
    refine List.Nodup.append hA ?_ ?_
    · exact List.Nodup.sublist ((List.filter_sublist _).map URL.str) hRs
    · intro s hs hm
      exact hdisj2 s hs (hsubR _ s hm)
  · rw [h1]
    exact List.Nodup.sublist ((List.filter_sublist _).map URL.str) hRs
  · rw [h1]
    exact List.Nodup.sublist (List.filter_sublist _) hRr
  · rw [List.eq_nil_iff_forall_not_mem]
    intro s hs
    have h3 := List.mem_inter_iff.mp hs
    have hsa := h3.1
    have hsr := h3.2
    rw [h2] at hsa
    rw [h1] at hsr
    rcases List.mem_append.mp hsa with h4 | h4
    · exact hdisj2 s h4 (hsubR _ s hsr)
    · obtain ⟨v, hvmem, hvstr⟩ := List.mem_map.mp h4
      obtain ⟨w, hwmem, hwstr⟩ := List.mem_map.mp hsr
      have hvR := List.Sublist.mem hvmem (List.filter_sublist r.removedUrls)
      have hwR := List.Sublist.mem hwmem (List.filter_sublist r.removedUrls)
      have hvw : v = w := by
        refine List.inj_on_of_nodup_map hRs hvR hwR ?_
        rw [hvstr, hwstr]
      have hvok := List.of_mem_filter hvmem
      have hwok := List.of_mem_filter hwmem
      rw [hvw] at hvok
      rw [hvok] at hwok
      simp at hwok

theorem regInv_execOps : ∀ (ops : List RegOp) (r : RoundRobinBalancer),
    RegInv r → WfTrace r ops → RegInv (execOps r ops) := by
  intro ops
  induction ops with
  | nil => intro r h _; exact h
  | cons op ops ih =>
    intro r h hwf
    cases op with
    | rem u =>
      obtain ⟨hmem, hwf2⟩ := hwf
      exact ih _ (regInv_remove h hmem) hwf2
    | restore oracle =>
      exact ih _ (regInv_restore oracle h) hwf

/-- Claim C2 as amended: starting from a registry whose configured strings
have no duplicates, along every sequence of `RemoveURL` and probe-pass
operations in which each removal names an endpoint string-present in
`activeUrls` at the time of the call (the only way the program itself calls
`RemoveURL`), the registry invariant holds at every observation point: the
active strings have no duplicates, the removed strings have no duplicates,
and no string is both active and removed. Without the string-present
discipline the invariant fails (see the counterexample). -/
theorem c2_invariant_amended (urls : List String) (ops : List RegOp)
    (hnd : urls.Nodup) (hwf : WfTrace (NewRoundRobinBalancer urls) ops) :
    RegInv (execOps (NewRoundRobinBalancer urls) ops) :=
  regInv_execOps ops _ (regInv_new hnd) hwf

/-- Witness for the amended C2 at a concrete input: remove the (present)
first backend, then run a probe pass in which every server answers 404. -/
theorem c2_amended_witness :
    RegInv (execOps (NewRoundRobinBalancer [s81, s82])
      [RegOp.rem ⟨5, s81⟩, RegOp.restore probe404]) := by
  apply c2_invariant_amended
  · decide
  · exact ⟨by decide, trivial⟩

/-! ## Iterated selection -/

theorem balancer_ext {x y : RoundRobinBalancer}
    (h1 : x.activeUrls = y.activeUrls) (h2 : x.removedUrls = y.removedUrls)
    (h3 : x.currentIndex = y.currentIndex) (h4 : x.nextId = y.nextId) : x = y := by
  cases x; cases y; simp_all

theorem iterNext_state (n : Nat) : ∀ (r : RoundRobinBalancer), r.activeUrls ≠ [] →
    (LB.iterNext n r).2.activeUrls = r.activeUrls ∧
    (LB.iterNext n r).2.removedUrls = r.removedUrls ∧
    (LB.iterNext n r).2.nextId = r.nextId := by
  induction n with
  | zero => intro r _; exact ⟨rfl, rfl, rfl⟩
  | succ n ih =>
    intro r h
    simp only [LB.iterNext, LB.GetNextURL_pos h]
    exact ih { r with currentIndex := (r.currentIndex + 1) % W64 } h

theorem iterNext_cursor (n : Nat) : ∀ (r : RoundRobinBalancer), r.activeUrls ≠ [] →
    r.currentIndex < W64 →
    (LB.iterNext n r).2.currentIndex = (r.currentIndex + n) % W64 := by
  induction n with
  | zero =>
    intro r _ hc
    exact (Nat.mod_eq_of_lt hc).symm
  | succ n ih =>
    intro r h hc
    simp only [LB.iterNext, LB.GetNextURL_pos h]
    have hlt : (r.currentIndex + 1) % W64 < W64 := by
      refine Nat.mod_lt _ ?_
      rw [W64]
      exact Nat.pos_pow_of_pos 64 (by omega)
    rw [ih { r with currentIndex := (r.currentIndex + 1) % W64 } h hlt]
    show ((r.currentIndex + 1) % W64 + n) % W64 = (r.currentIndex + (n + 1)) % W64
    rw [Nat.mod_add_mod]
    congr 1
    omega

/-! ## Claim C8 -/

theorem foldl_restoreStep_cursor (ok : URL → Bool) :
    ∀ (L : List URL) (r : RoundRobinBalancer),
      (L.foldl (restoreStep ok) r).currentIndex = r.currentIndex := by
  intro L
  induction L with
  | nil => intro r; rfl
  | cons u L ih =>
    intro r
    rw [List.foldl_cons, ih]
    by_cases hok : ok u = true
    · exact restoreStep_pos_index hok
    · rw [restoreStep_neg hok]

/-- Claim C8, counterexample. The cursor is a `uint64`: starting from the
one-backend registry, `2^64 - 1` selections drive it to the largest `uint64`
value (the first conjunct shows the reached state exactly), and the next
selection wraps it to 0 - that call decreases the cursor instead of
increasing it by one, so the cursor is not monotone over the registry's
lifetime. -/
theorem c8_counterexample :
    (LB.iterNext (W64 - 1) oneBalancer).2 = wrapOne ∧
    wrapOne.currentIndex = W64 - 1 ∧
    (LB.GetNextURL wrapOne).2.currentIndex = 0 := by
  refine ⟨?_, rfl, by decide⟩
  have h1 : oneBalancer.activeUrls ≠ [] := by decide
  obtain ⟨ha, hr, hn⟩ := iterNext_state (W64 - 1) oneBalancer h1
  have hc := iterNext_cursor (W64 - 1) oneBalancer h1 (by decide)
  refine balancer_ext ?_ ?_ ?_ ?_
  · rw [ha]; decide
  · rw [hr]; decide
  · rw [hc]; decide
  · rw [hn]; decide

/-- Claim C8 as amended: a `GetNextURL` call on a non-empty active set
advances the cursor by exactly one modulo `2^64` (so it increases by one as
long as fewer than `2^64` selections have happened, but wraps to 0 at the
`2^64`-th - see the counterexample); on an empty active set the state is
untouched; and `RemoveURL` and `CheckAndRestoreUrls` never change the
cursor, even when they change the length of the active sequence. -/
theorem c8_cursor_amended (r : RoundRobinBalancer) (u : URL) (oracle : URL → Outcome) :
    (r.activeUrls ≠ [] →
      (LB.GetNextURL r).2.currentIndex = (r.currentIndex + 1) % W64) ∧
    (r.activeUrls = [] → (LB.GetNextURL r).2 = r) ∧
    (RemoveURL r u).currentIndex = r.currentIndex ∧
    (LB.CheckAndRestoreUrls oracle r).currentIndex = r.currentIndex ∧
    (r.activeUrls ≠ [] → r.currentIndex + 1 < W64 →
      r.currentIndex < (LB.GetNextURL r).2.currentIndex) := by
  refine ⟨?_, ?_, rfl, ?_, ?_⟩
  · intro h
    rw [LB.GetNextURL_pos h]
  · intro h
    rw [LB.GetNextURL_empty h]
  · exact foldl_restoreStep_cursor (probeOk oracle) r.removedUrls r
  · intro h hlt
    rw [LB.GetNextURL_pos h]
    show r.currentIndex < (r.currentIndex + 1) % W64
    rw [Nat.mod_eq_of_lt hlt]
    omega

/-- Witness for the amended C8 at a concrete input. -/
theorem c8_amended_witness :
    (LB.GetNextURL oneBalancer).2.currentIndex = (oneBalancer.currentIndex + 1) % W64 ∧
    oneBalancer.currentIndex < (LB.GetNextURL oneBalancer).2.currentIndex := by
  have h := c8_cursor_amended oneBalancer ⟨0, s81⟩ probe404
  exact ⟨h.1 (by decide), h.2.2.2.2 (by decide) (by decide)⟩

/-! ## Claim C7: round-robin fairness -/

theorem count_eq_countP_decide {α : Type} [DecidableEq α] (a : α) (l : List α) :
    l.count a = l.countP (fun x => decide (x = a)) := by
  rw [List.count_eq_countP]
  apply List.countP_congr
  intro x _
  by_cases h : x = a
  · simp [h]
  · simp [h]

theorem count_range_mod (K d : Nat) (hK : 0 < K) (hd : d < K) :
    ∀ N, ((List.range N).filter (fun i => decide (i % K = d))).length
      = N / K + (if d < N % K then 1 else 0) := by
  intro N
  induction N with
  | zero => simp
  | succ N ih =>
    rw [List.range_succ, List.filter_append, List.length_append, ih]
    have hm : N % K < K := Nat.mod_lt _ hK
    have hdm := Nat.div_add_mod N K
    have hsingle : (List.filter (fun i => decide (i % K = d)) [N]).length
        = if N % K = d then 1 else 0 := by
      by_cases h : N % K = d
      · simp [h]
      · simp [h]
    rw [hsingle]
    by_cases hend : N % K + 1 = K
    · have hdist : K * (N / K + 1) = K * (N / K) + K := by ring
      have hrep : N + 1 = K * (N / K + 1) := by omega
      have hdiv : (N + 1) / K = N / K + 1 := by
        rw [hrep, Nat.mul_div_cancel_left _ hK]
      have hmod0 : (N + 1) % K = 0 := by
        rw [hrep]
        exact Nat.mul_mod_right K _
      rw [hdiv, hmod0]
      split_ifs <;> omega
    · have hlt : N % K + 1 < K := by omega
      have hrep : N + 1 = (N % K + 1) + K * (N / K) := by omega
      have hdiv : (N + 1) / K = N / K := by
        rw [hrep, Nat.add_mul_div_left _ _ hK, Nat.div_eq_of_lt hlt, Nat.zero_add]
      have hmod : (N + 1) % K = N % K + 1 := by
        rw [hrep, Nat.add_mul_mod_self_left, Nat.mod_eq_of_lt hlt]
      rw [hdiv, hmod]
      split_ifs <;> omega

theorem mod_shift_equiv (K c i j : Nat) (hK : 0 < K) (hj : j < K) :
    (c + i) % K = j ↔ i % K = (j + (K - c % K)) % K := by
  have ha : c % K < K := Nat.mod_lt _ hK
  have hb : i % K < K := Nat.mod_lt _ hK
  have hsplit : (c + i) % K = (c % K + i % K) % K := by
    rw [Nat.add_mod]
  constructor
  · intro h
    rw [← h, hsplit, Nat.mod_add_mod]
    have he : c % K + i % K + (K - c % K) = i % K + K := by omega
    rw [he, Nat.add_mod_right, Nat.mod_eq_of_lt hb]
  · intro h
    rw [hsplit, h, Nat.add_mod_mod]
    have he : c % K + (j + (K - c % K)) = j + K := by omega
    rw [he, Nat.add_mod_right, Nat.mod_eq_of_lt hj]

theorem count_bounds (K d N : Nat) (hK : 0 < K) (hd : d < K) :
    N / K ≤ ((List.range N).filter (fun i => decide (i % K = d))).length ∧
    ((List.range N).filter (fun i => decide (i % K = d))).length ≤ (N + K - 1) / K := by
  rw [count_range_mod K d hK hd N]
  constructor
  · split_ifs <;> omega
  · by_cases h : d < N % K
    · rw [if_pos h]
      have hdm := Nat.div_add_mod N K
      have hm : N % K < K := Nat.mod_lt _ hK
      rw [Nat.le_div_iff_mul_le hK]
      have hexp : (N / K + 1) * K = K * (N / K) + K := by ring
      omega
    · rw [if_neg h]
      refine Nat.div_le_div_right ?_
      omega

theorem iterNext_outputs (n : Nat) : ∀ (r : RoundRobinBalancer), r.activeUrls ≠ [] →
    r.currentIndex + n ≤ W64 →
    (LB.iterNext n r).1 = (List.range n).map (fun i =>
      r.activeUrls.getD ((r.currentIndex + i) % r.activeUrls.length) defaultURL) := by
  induction n with
  | zero => intro r _ _; rfl
  | succ n ih =>
    intro r h hb
    have hlen : 0 < r.activeUrls.length := List.length_pos.mpr h
    have hmod : r.currentIndex % r.activeUrls.length < r.activeUrls.length :=
      Nat.mod_lt _ hlen
    have hb1 : (r.currentIndex + 1) % W64 + n ≤ W64 := by
      rcases Nat.lt_or_ge (r.currentIndex + 1) W64 with hlt | hge
      · rw [Nat.mod_eq_of_lt hlt]
        omega
      · have he : r.currentIndex + 1 = W64 := by omega
        rw [he, Nat.mod_self]
        omega
    have htail := ih { r with currentIndex := (r.currentIndex + 1) % W64 } h hb1
    simp only [LB.iterNext, LB.GetNextURL_pos h, Option.toList_some, List.singleton_append]
    rw [htail]
    simp only [List.range_succ_eq_map, List.map_cons, List.map_map]
    congr 1
    · simp only [Nat.add_zero]
      exact (List.getD_eq_get _ _ hmod).symm
    · apply List.map_congr_left
      intro i hi
      have hi2 : i < n := List.mem_range.mp hi
      show r.activeUrls.getD (((r.currentIndex + 1) % W64 + i) % r.activeUrls.length) defaultURL
          = r.activeUrls.getD ((r.currentIndex + Nat.succ i) % r.activeUrls.length) defaultURL
      have hc1 : (r.currentIndex + 1) % W64 = r.currentIndex + 1 := by
        apply Nat.mod_eq_of_lt
        omega
      rw [hc1]
      have harg : r.currentIndex + 1 + i = r.currentIndex + Nat.succ i := by omega
      rw [harg]

/-- Claim C7, counterexample. The cursor is a `uint64`. After `2^64 - 1`
selections from the fresh three-backend registry the reached state is
exactly `wrapBalancer` (first conjunct); in the next `N = 3` consecutive
selections over the stable `K = 3` active set the cursor wraps, the returned
endpoints are `:81, :81, :82`, and `:83` is returned `0 < 1 = N / K` times -
the fairness bound and the cyclic order both fail across the wrap. -/
theorem c7_counterexample :
    (LB.iterNext (W64 - 1) testBalancer).2 = wrapBalancer ∧
    (LB.iterNext 3 wrapBalancer).1 = [⟨0, s81⟩, ⟨0, s81⟩, ⟨1, s82⟩] ∧
    (LB.iterNext 3 wrapBalancer).1.count ⟨2, s83⟩ = 0 := by
  refine ⟨?_, by decide, by decide⟩
  have h1 : testBalancer.activeUrls ≠ [] := by decide
  obtain ⟨ha, hr, hn⟩ := iterNext_state (W64 - 1) testBalancer h1
  have hc := iterNext_cursor (W64 - 1) testBalancer h1 (by decide)
  refine balancer_ext ?_ ?_ ?_ ?_
  · rw [ha]; decide
  · rw [hr]; decide
  · rw [hc]; decide
  · rw [hn]; decide

/-- Claim C7 as amended: for every registry state with non-empty,
duplicate-free active sequence of length `K`, and every `N` such that the
window does not cross a `uint64` cursor wrap (`cursor + N ≤ 2^64`), across
`N` consecutive `GetNextURL` calls with no interleaved remove or reinstate
each active endpoint is returned at least `⌊N/K⌋` and at most `⌈N/K⌉`
times, and the i-th returned endpoint is `active[(cursor + i) mod K]` - the
cyclic order of the active sequence. Across a wrap the bounds fail (see the
counterexample). -/
theorem c7_fairness_amended (r : RoundRobinBalancer) (N : Nat)
    (h : r.activeUrls ≠ []) (hnd : r.activeUrls.Nodup)
    (hb : r.currentIndex + N ≤ W64) :
    (∀ u, u ∈ r.activeUrls →
      N / r.activeUrls.length ≤ (LB.iterNext N r).1.count u ∧
      (LB.iterNext N r).1.count u
        ≤ (N + r.activeUrls.length - 1) / r.activeUrls.length) ∧
    (∀ i, i < N → (LB.iterNext N r).1.getD i defaultURL
      = r.activeUrls.getD ((r.currentIndex + i) % r.activeUrls.length) defaultURL) := by
  have hK : 0 < r.activeUrls.length := List.length_pos.mpr h
  have houts := iterNext_outputs N r h hb
  constructor
  · intro u hu
    obtain ⟨⟨j, hj⟩, hget⟩ := List.mem_iff_get.mp hu
    have hcount : (LB.iterNext N r).1.count u
        = ((List.range N).filter (fun i =>
            decide ((r.currentIndex + i) % r.activeUrls.length = j))).length := by
      rw [houts, count_eq_countP_decide, List.countP_map, List.countP_eq_length_filter]
      congr 1
      apply List.filter_congr
      intro i _
      have hm : (r.currentIndex + i) % r.activeUrls.length < r.activeUrls.length :=
        Nat.mod_lt _ hK
      show decide (r.activeUrls.getD
            ((r.currentIndex + i) % r.activeUrls.length) defaultURL = u)
          = decide ((r.currentIndex + i) % r.activeUrls.length = j)
      rw [List.getD_eq_get _ _ hm, decide_eq_decide, ← hget, hnd.get_inj_iff]
      exact Fin.mk_eq_mk
    have hshift : ((List.range N).filter (fun i =>
          decide ((r.currentIndex + i) % r.activeUrls.length = j))).length
        = ((List.range N).filter (fun i =>
            decide (i % r.activeUrls.length
              = (j + (r.activeUrls.length - r.currentIndex % r.activeUrls.length))
                  % r.activeUrls.length))).length := by
      congr 1
      apply List.filter_congr
      intro i _
      rw [decide_eq_decide]
      exact mod_shift_equiv _ _ _ _ hK hj
    have hd2 : (j + (r.activeUrls.length - r.currentIndex % r.activeUrls.length))
        % r.activeUrls.length < r.activeUrls.length := Nat.mod_lt _ hK
    rw [hcount, hshift]
    exact count_bounds r.activeUrls.length _ N hK hd2
  · intro i hi
    rw [houts, List.getD_eq_getD_get?, List.get?_map, List.get?_range hi]
    rfl

/-- Witness for the amended C7 at a concrete input: six selections over the
stable three-backend registry return the first backend exactly twice
(between `⌊6/3⌋` and `⌈6/3⌉`), and the first returned endpoint is the one at
position `cursor mod 3`. -/
theorem c7_amended_witness :
    (6 / testBalancer.activeUrls.length ≤ (LB.iterNext 6 testBalancer).1.count ⟨0, s81⟩ ∧
      (LB.iterNext 6 testBalancer).1.count ⟨0, s81⟩
        ≤ (6 + testBalancer.activeUrls.length - 1) / testBalancer.activeUrls.length) ∧
    (LB.iterNext 6 testBalancer).1.getD 0 defaultURL
      = testBalancer.activeUrls.getD
          ((testBalancer.currentIndex + 0) % testBalancer.activeUrls.length) defaultURL := by
  have h := c7_fairness_amended testBalancer 6 (by decide) (by decide) (by decide)
  exact ⟨h.1 ⟨0, s81⟩ (by decide), h.2 0 (by decide)⟩
